import Mathlib

/-!
Verification of the custom DBF (dBASE attribute table) reader of the
`places-of-worship` repository.

The reader appears twice in the source, byte-for-byte identical:
  * `read_dbf` in `scripts/create_simplified_ta_geojson.py` (lines 12-58)
  * `read_dbf` in `scripts/generate_complete_ta_data.py` (lines 13-59)

The shallow embedding models the opened file as a `List Nat` of byte values
(the only effect of the Python function is reading the file's bytes, which
the embedding passes as the argument).  Python exceptions become the
`Except PyErr` monad.  The Python builtins that the reader uses
(`bytes.strip`, `str.strip`, `bytes.decode`, `int()`, `float()`,
`struct.unpack`) are modelled once, below, and shared by the two
translations.  `float()` is modelled with exact decimal (rational)
semantics: the reader performs no arithmetic on the parsed values, so
IEEE-754 rounding is irrelevant to every property stated here.
-/

/-- Errors the Python code can raise while parsing.
`structError` is `struct.error` from a short `struct.unpack` buffer,
`indexError` is `IndexError` from indexing an empty/short `bytes`,
`unicodeDecodeError` is a strict `bytes.decode(utf-8)` failure. -/
inductive PyErr where
  | structError
  | indexError
  | unicodeDecodeError
deriving DecidableEq, Repr

/-- A decoded DBF field value: Python `str`, `int` or `float`
(floats carried as exact rationals, see the file docstring). -/
inductive Value where
  | str (s : String)
  | int (n : Int)
  | float (q : Rat)
deriving DecidableEq, Repr

/-- A Python dict `str -> value` as an insertion-ordered association list,
matching CPython dict semantics (first-insertion order, in-place update). -/
abbrev RecordMap := List (String × Value)

/-- `d[k] = v` on a Python dict: overwrite in place if the key exists,
otherwise append at the end. -/
def dictInsert : RecordMap → String → Value → RecordMap
  | [], k, v => [(k, v)]
  | (k', v') :: rest, k, v =>
    if k' = k then (k, v) :: rest else (k', v') :: dictInsert rest k v

/-- Dict lookup (first matching key). -/
def dictLookup : RecordMap → String → Option Value
  | [], _ => none
  | (k', v') :: rest, k => if k' = k then some v' else dictLookup rest k

/-- `f.read(n)` of a file whose bytes are `file`, with the cursor at `pos`:
returns up to `n` bytes, fewer (or none) at end of file, never failing. -/
def pyRead (file : List Nat) (pos n : Nat) : List Nat :=
  (file.drop pos).take n

/-- Strip elements satisfying `p` from both ends of a list
(the semantics of Python's `strip`). -/
def stripEnds (p : α → Bool) (l : List α) : List α :=
  ((l.dropWhile p).reverse.dropWhile p).reverse

/-- ASCII whitespace stripped by `bytes.strip()`:
space, tab, newline, CR, vertical tab, form feed. -/
def pyIsByteSpace (b : Nat) : Bool :=
  b == 32 || b == 9 || b == 10 || b == 13 || b == 11 || b == 12

/-- `value.strip()` on `bytes`. -/
def pyBytesStrip (bs : List Nat) : List Nat :=
  stripEnds pyIsByteSpace bs

/-- Code points treated as whitespace by `str.strip()` (CPython
`Py_UNICODE_ISSPACE`). -/
def pyIsStrSpace (c : Char) : Bool :=
  let n := c.toNat
  (9 ≤ n && n ≤ 13) || (28 ≤ n && n ≤ 31) || n == 32 || n == 133 ||
  n == 160 || n == 5760 || (8192 ≤ n && n ≤ 8202) || n == 8232 ||
  n == 8233 || n == 8239 || n == 8287 || n == 12288

/-- `s.strip()` on `str`. -/
def pyStrStrip (s : String) : String :=
  String.mk (stripEnds pyIsStrSpace s.data)

/-- State of the UTF-8 decoding automaton while inside a multi-byte
sequence: code point accumulated so far, number of continuation bytes
still expected, and the admissible range for the next byte. -/
structure USt where
  acc : Nat
  need : Nat
  lo : Nat
  hi : Nat

/-- Classify a byte as the start of a UTF-8 sequence: an ASCII character,
the lead of a multi-byte sequence (with the constrained range of its first
continuation byte, which excludes overlong forms, surrogates and code
points above U+10FFFF exactly as CPython does), or invalid. -/
def utf8Start (b : Nat) : Option (Char ⊕ USt) :=
  if b < 128 then some (Sum.inl (Char.ofNat b))
  else if b < 194 then none
  else if b ≤ 223 then some (Sum.inr ⟨b - 192, 1, 128, 191⟩)
  else if b = 224 then some (Sum.inr ⟨0, 2, 160, 191⟩)
  else if b ≤ 236 then some (Sum.inr ⟨b - 224, 2, 128, 191⟩)
  else if b = 237 then some (Sum.inr ⟨13, 2, 128, 159⟩)
  else if b ≤ 239 then some (Sum.inr ⟨b - 224, 2, 128, 191⟩)
  else if b = 240 then some (Sum.inr ⟨0, 3, 144, 191⟩)
  else if b ≤ 243 then some (Sum.inr ⟨b - 240, 3, 128, 191⟩)
  else if b = 244 then some (Sum.inr ⟨4, 3, 128, 143⟩)
  else none

/-- UTF-8 decoder shared by `bytes.decode(utf-8)` (strict: `none` on the
first invalid sequence) and `bytes.decode(utf-8, ignore)`
(skip the maximal subpart of an invalid sequence and resume at the
offending byte, as CPython's error handling does). -/
def utf8Aux (strict : Bool) : Option USt → List Nat → Option (List Char)
  | none, [] => some []
  | some _, [] => if strict then none else some []
  | none, b :: rest =>
    match utf8Start b with
    | some (Sum.inl c) => (utf8Aux strict none rest).map (c :: ·)
    | some (Sum.inr st) => utf8Aux strict (some st) rest
    | none => if strict then none else utf8Aux strict none rest
  | some st, b :: rest =>
    if st.lo ≤ b ∧ b ≤ st.hi then
      let acc' := st.acc * 64 + (b - 128)
      if st.need = 1 then (utf8Aux strict none rest).map (Char.ofNat acc' :: ·)
      else utf8Aux strict (some ⟨acc', st.need - 1, 128, 191⟩) rest
    else if strict then none
    else
      match utf8Start b with
      | some (Sum.inl c) => (utf8Aux strict none rest).map (c :: ·)
      | some (Sum.inr st') => utf8Aux strict (some st') rest
      | none => utf8Aux strict none rest

/-- Strict `bs.decode(utf-8)`. -/
def utf8DecodeStrict (bs : List Nat) : Option (List Char) :=
  utf8Aux true none bs

/-- Best-effort `bs.decode(utf-8, ignore)`; never fails. -/
def utf8DecodeIgnore (bs : List Nat) : List Char :=
  (utf8Aux false none bs).getD []

/-- A run of ASCII digits with single underscores allowed between digits
(the Python numeric-literal rule).  `prev` records whether the previous
byte was a digit; returns the value and the number of digits, or `none`
if the run is empty or an underscore is misplaced. -/
def digitsU : Bool → Nat → Nat → List Nat → Option (Nat × Nat)
  | prev, acc, cnt, [] => if prev then some (acc, cnt) else none
  | prev, acc, cnt, b :: rest =>
    if 48 ≤ b ∧ b ≤ 57 then digitsU true (acc * 10 + (b - 48)) (cnt + 1) rest
    else if b = 95 ∧ prev then digitsU false acc cnt rest
    else none

/-- An optional ASCII sign: returns (isNegative, remaining bytes). -/
def pySign : List Nat → Bool × List Nat
  | 43 :: rest => (false, rest)
  | 45 :: rest => (true, rest)
  | bs => (false, bs)

/-- Split at the first element satisfying `p`:
(prefix, `some` suffix after the delimiter, or `none` if absent). -/
def splitAtFirst (p : Nat → Bool) : List Nat → List Nat × Option (List Nat)
  | [] => ([], none)
  | b :: rest =>
    if p b then ([], some rest)
    else
      let (pre, post) := splitAtFirst p rest
      (b :: pre, post)

/-- Python `int(bytes)`: surrounding ASCII whitespace, an optional sign,
then a non-empty digit run (underscores between digits allowed). -/
def pyParseInt (bs0 : List Nat) : Option Int :=
  let bs := pyBytesStrip bs0
  let (neg, bs1) := pySign bs
  match digitsU false 0 0 bs1 with
  | some (v, _) => some (if neg then -(v : Int) else (v : Int))
  | none => none

/-- Python `float(bytes)` on decimal forms: optional sign,
`digits [. digits] [e|E [sign] digits]` with at least one mantissa digit
and underscores only between digits.  (The non-decimal spellings
`inf`/`nan` contain no `.` and are unreachable from the reader's
float branch, which requires a `.` in the bytes.)  The exact decimal
value is returned as a rational. -/
def pyParseFloat (bs0 : List Nat) : Option Rat :=
  let bs := pyBytesStrip bs0
  let (neg, bs1) := pySign bs
  let (mant, expPart) := splitAtFirst (fun b => b == 101 || b == 69) bs1
  let (ipart, fpartOpt) := splitAtFirst (fun b => b == 46) mant
  let iOpt := if ipart = [] then some (0, 0) else digitsU false 0 0 ipart
  let fOpt :=
    match fpartOpt with
    | none => some (0, 0)
    | some [] => some (0, 0)
    | some fp => digitsU false 0 0 fp
  match iOpt, fOpt with
  | some (iv, icnt), some (fv, fcnt) =>
    if icnt + fcnt = 0 then none
    else
      let eOpt :=
        match expPart with
        | none => some (false, 0)
        | some es =>
          let (eneg, es1) := pySign es
          match digitsU false 0 0 es1 with
          | some (ev, _) => some (eneg, ev)
          | none => none
      match eOpt with
      | none => none
      | some (eneg, ev) =>
        let base : Rat := (iv : Rat) + (fv : Rat) / ((10 : Rat) ^ fcnt)
        let scaled : Rat := if eneg then base / (10 : Rat) ^ ev else base * (10 : Rat) ^ ev
        some (if neg then -scaled else scaled)
  | _, _ => none

/-- Little-endian `struct.unpack(<I, bs)[0]`: fails unless `bs` has exactly 4 bytes. -/
def unpackU32 (bs : List Nat) : Except PyErr Nat :=
  match bs with
  | [a, b, c, d] => .ok (a + 256 * b + 65536 * c + 16777216 * d)
  | _ => .error .structError

/-- Little-endian `struct.unpack(<H, bs)[0]`: fails unless `bs` has exactly 2 bytes. -/
def unpackU16 (bs : List Nat) : Except PyErr Nat :=
  match bs with
  | [a, b] => .ok (a + 256 * b)
  | _ => .error .structError

/-- One parsed field descriptor, as the Python code keeps it in the
`fields` list: `(name, field_type, field_len)`. -/
structure DField where
  name : String
  type : Char
  len : Nat
deriving DecidableEq, Repr

namespace CreateSimplifiedTaGeojson

/-- The body of the per-field loop of `read_dbf`
(`create_simplified_ta_geojson.py` lines 44-55): strip the field's raw
bytes, then assign a value for type C or N; other type codes
assign nothing (`none`). -/
def decodeOne (f : DField) (raw : List Nat) : Option Value :=
  let value := pyBytesStrip raw
  if f.type = 'C' then
    some (.str (pyStrStrip (String.mk (utf8DecodeIgnore value))))
  else if f.type = 'N' then
    some (if value.contains 46 then
            match pyParseFloat value with
            | some q => .float q
            | none => .int 0
          else
            match pyParseInt value with
            | some n => .int n
            | none => .int 0)
  else none

/-- The field loop of `read_dbf` (lines 41-56): starting at `offset = 1`
(skipping the deletion flag), slice each field's declared width, decode it,
and advance the offset by the declared width for every field. -/
def decodeFields : List DField → List Nat → Nat → RecordMap → RecordMap
  | [], _, _, acc => acc
  | f :: fs, record, offset, acc =>
    let acc' :=
      match decodeOne f ((record.drop offset).take f.len) with
      | some v => dictInsert acc f.name v
      | none => acc
    decodeFields fs record (offset + f.len) acc'

/-- The field-descriptor `while` loop of `read_dbf` (lines 22-31): while
`f.tell() < header_len - 1`, read a 32-byte descriptor; stop at a `0x0D`
first byte; decode name (strict UTF-8 of the NUL-stripped first 11 bytes),
type byte 11 and length byte 16 (an `IndexError` if the read was short).
The loop advances the file cursor by at least one byte per iteration, so
`fuel = header_len` (what `read_dbf` passes) always suffices; the fuel-0
branch is unreachable from the call in `read_dbf`. -/
def readFields (file : List Nat) (headerLen : Nat) : Nat → Nat → Except PyErr (List DField)
  | _, 0 => .ok []
  | pos, fuel + 1 =>
    if (pos : Int) < (headerLen : Int) - 1 then
      match pyRead file pos 32 with
      | [] => .error .indexError
      | b :: bs =>
        if b = 13 then .ok []
        else
          match utf8DecodeStrict (stripEnds (· == 0) ((b :: bs).take 11)) with
          | none => .error .unicodeDecodeError
          | some nameChars =>
            match (b :: bs)[11]? with
            | none => .error .indexError
            | some tb =>
              match (b :: bs)[16]? with
              | none => .error .indexError
              | some lb =>
                match readFields file headerLen (pos + (b :: bs).length) fuel with
                | .error e => .error e
                | .ok rest => .ok (⟨String.mk nameChars, Char.ofNat tb, lb⟩ :: rest)
    else .ok []

/-- The record loop of `read_dbf` (lines 34-56): `num_records` iterations,
each reading `record_len` bytes (`IndexError` on an empty read when the
deletion flag is tested), skipping records whose first byte is `0x2A`,
decoding the rest and appending in file order. -/
def readRecords (file : List Nat) (flds : List DField) (recordLen : Nat) : Nat → Nat → Except PyErr (List RecordMap)
  | _, 0 => .ok []
  | pos, n + 1 =>
    match pyRead file pos recordLen with
    | [] => .error .indexError
    | b :: bs =>
      if b = 42 then readRecords file flds recordLen (pos + (b :: bs).length) n
      else
        match readRecords file flds recordLen (pos + (b :: bs).length) n with
        | .error e => .error e
        | .ok rest => .ok (decodeFields flds (b :: bs) 1 [] :: rest)

/-- `read_dbf` of `scripts/create_simplified_ta_geojson.py` (lines 12-58):
read the 32-byte header, unpack `num_records` (bytes 4..8, `<I`),
`header_len` (bytes 8..10, `<H`) and `record_len` (bytes 10..12, `<H`),
parse the field descriptors from offset 32, then read the records from
offset `header_len`. -/
def read_dbf (file : List Nat) : Except PyErr (List RecordMap) :=
  let header := pyRead file 0 32
  match unpackU32 ((header.drop 4).take 4) with
  | .error e => .error e
  | .ok numRecords =>
    match unpackU16 ((header.drop 8).take 2) with
    | .error e => .error e
    | .ok headerLen =>
      match unpackU16 ((header.drop 10).take 2) with
      | .error e => .error e
      | .ok recordLen =>
        match readFields file headerLen 32 headerLen with
        | .error e => .error e
        | .ok flds => readRecords file flds recordLen headerLen numRecords

end CreateSimplifiedTaGeojson

namespace GenerateCompleteTaData

/-- The body of the per-field loop of `read_dbf`
(`generate_complete_ta_data.py` lines 45-56): strip the field's raw
bytes, then assign a value for type C or N; other type codes
assign nothing (`none`). -/
def decodeOne (f : DField) (raw : List Nat) : Option Value :=
  let value := pyBytesStrip raw
  if f.type = 'C' then
    some (.str (pyStrStrip (String.mk (utf8DecodeIgnore value))))
  else if f.type = 'N' then
    some (if value.contains 46 then
            match pyParseFloat value with
            | some q => .float q
            | none => .int 0
          else
            match pyParseInt value with
            | some n => .int n
            | none => .int 0)
  else none

/-- The field loop of `read_dbf` (lines 42-57): starting at `offset = 1`
(skipping the deletion flag), slice each field's declared width, decode it,
and advance the offset by the declared width for every field. -/
def decodeFields : List DField → List Nat → Nat → RecordMap → RecordMap
  | [], _, _, acc => acc
  | f :: fs, record, offset, acc =>
    let acc' :=
      match decodeOne f ((record.drop offset).take f.len) with
      | some v => dictInsert acc f.name v
      | none => acc
    decodeFields fs record (offset + f.len) acc'

/-- The field-descriptor `while` loop of `read_dbf` (lines 23-32): while
`f.tell() < header_len - 1`, read a 32-byte descriptor; stop at a `0x0D`
first byte; decode name (strict UTF-8 of the NUL-stripped first 11 bytes),
type byte 11 and length byte 16 (an `IndexError` if the read was short).
The loop advances the file cursor by at least one byte per iteration, so
`fuel = header_len` (what `read_dbf` passes) always suffices; the fuel-0
branch is unreachable from the call in `read_dbf`. -/
def readFields (file : List Nat) (headerLen : Nat) : Nat → Nat → Except PyErr (List DField)
  | _, 0 => .ok []
  | pos, fuel + 1 =>
    if (pos : Int) < (headerLen : Int) - 1 then
      match pyRead file pos 32 with
      | [] => .error .indexError
      | b :: bs =>
        if b = 13 then .ok []
        else
          match utf8DecodeStrict (stripEnds (· == 0) ((b :: bs).take 11)) with
          | none => .error .unicodeDecodeError
          | some nameChars =>
            match (b :: bs)[11]? with
            | none => .error .indexError
            | some tb =>
              match (b :: bs)[16]? with
              | none => .error .indexError
              | some lb =>
                match readFields file headerLen (pos + (b :: bs).length) fuel with
                | .error e => .error e
                | .ok rest => .ok (⟨String.mk nameChars, Char.ofNat tb, lb⟩ :: rest)
    else .ok []

/-- The record loop of `read_dbf` (lines 35-57): `num_records` iterations,
each reading `record_len` bytes (`IndexError` on an empty read when the
deletion flag is tested), skipping records whose first byte is `0x2A`,
decoding the rest and appending in file order. -/
def readRecords (file : List Nat) (flds : List DField) (recordLen : Nat) : Nat → Nat → Except PyErr (List RecordMap)
  | _, 0 => .ok []
  | pos, n + 1 =>
    match pyRead file pos recordLen with
    | [] => .error .indexError
    | b :: bs =>
      if b = 42 then readRecords file flds recordLen (pos + (b :: bs).length) n
      else
        match readRecords file flds recordLen (pos + (b :: bs).length) n with
        | .error e => .error e
        | .ok rest => .ok (decodeFields flds (b :: bs) 1 [] :: rest)

/-- `read_dbf` of `scripts/generate_complete_ta_data.py` (lines 13-59):
read the 32-byte header, unpack `num_records` (bytes 4..8, `<I`),
`header_len` (bytes 8..10, `<H`) and `record_len` (bytes 10..12, `<H`),
parse the field descriptors from offset 32, then read the records from
offset `header_len`. -/
def read_dbf (file : List Nat) : Except PyErr (List RecordMap) :=
  let header := pyRead file 0 32
  match unpackU32 ((header.drop 4).take 4) with
  | .error e => .error e
  | .ok numRecords =>
    match unpackU16 ((header.drop 8).take 2) with
    | .error e => .error e
    | .ok headerLen =>
      match unpackU16 ((header.drop 10).take 2) with
      | .error e => .error e
      | .ok recordLen =>
        match readFields file headerLen 32 headerLen with
        | .error e => .error e
        | .ok flds => readRecords file flds recordLen headerLen numRecords

end GenerateCompleteTaData

/-! ## Synthetic well-formed DBF buffers

The spec's universally quantified properties range over "well-formed
synthetic DBF byte buffers".  `mkDbf` assembles one from a field list and
a record list, with arbitrary version/date bytes, reserved header bytes
and trailing bytes, exactly in the on-disk layout of §4.1 of the spec:
32-byte file header, 32-byte field descriptors, `0x0D` terminator,
fixed-width records each led by a deletion-flag byte. -/

/-- A synthetic field: raw name bytes (NUL-padded to 11 on disk),
type-code byte, declared length byte. -/
structure FSpec where
  name : List Nat
  type : Nat
  len : Nat
deriving DecidableEq, Repr

/-- Sum of the declared field lengths. -/
def sumLens (fs : List FSpec) : Nat := (fs.map FSpec.len).sum

/-- Little-endian 2-byte encoding. -/
def le2 (n : Nat) : List Nat := [n % 256, n / 256 % 256]

/-- Little-endian 4-byte encoding. -/
def le4 (n : Nat) : List Nat :=
  [n % 256, n / 256 % 256, n / 65536 % 256, n / 16777216 % 256]

/-- The 32-byte on-disk field descriptor: name NUL-padded to 11 bytes,
type byte at offset 11, length byte at offset 16, the rest zero. -/
def descBytes (f : FSpec) : List Nat :=
  (f.name ++ List.replicate (11 - f.name.length) 0) ++
    f.type :: 0 :: 0 :: 0 :: 0 :: f.len :: List.replicate 15 0

/-- A synthetic record's on-disk bytes: deletion-flag byte, then payload. -/
def recBytes (r : Nat × List Nat) : List Nat := r.1 :: r.2

/-- A well-formed DBF byte buffer: `pre` is the 4 version/date bytes,
`reserved` the remaining 20 header bytes, `tail` any bytes after the
record block.  Record count, header length (`32 + 32·fields + 1`) and
record length (`1 + sum of field lengths`) are encoded little-endian at
offsets 4, 8 and 10. -/
def mkDbf (pre reserved : List Nat) (fs : List FSpec) (recs : List (Nat × List Nat))
    (tail : List Nat) : List Nat :=
  pre ++ le4 recs.length ++ le2 (33 + 32 * fs.length) ++ le2 (1 + sumLens fs) ++ reserved ++
    (fs.map descBytes).flatten ++ 13 :: ((recs.map recBytes).flatten ++ tail)

/-- Well-formedness of a synthetic field: the name fits in 11 bytes, is
ASCII, and does not begin with the descriptor-terminator byte `0x0D`;
type and length fit in one byte. -/
def FSpecWF (f : FSpec) : Prop :=
  f.name.length ≤ 11 ∧ (∀ b ∈ f.name, b < 128) ∧ f.name.head? ≠ some 13 ∧
    f.type < 256 ∧ f.len < 256

/-- Well-formedness of a synthetic table: well-formed fields, sizes that
fit their encodings, and every record payload of exactly the declared
width in bytes. -/
def TableWF (fs : List FSpec) (recs : List (Nat × List Nat)) : Prop :=
  (∀ f ∈ fs, FSpecWF f) ∧ 33 + 32 * fs.length < 65536 ∧ 1 + sumLens fs < 65536 ∧
    recs.length < 4294967296 ∧
    ∀ r ∈ recs, r.1 < 256 ∧ r.2.length = sumLens fs ∧ ∀ b ∈ r.2, b < 256

/-- The parsed form of a synthetic field, as the descriptor loop of `read_dbf`
produces it: NUL-stripped ASCII name, type byte as a character,
declared length. -/
def toDField (f : FSpec) : DField :=
  ⟨String.mk ((stripEnds (· == 0) f.name).map Char.ofNat), Char.ofNat f.type, f.len⟩

/-- Byte offset of field `i` inside a record, counting the leading
deletion flag: one plus the declared lengths of the preceding fields. -/
def fieldOffset (flds : List DField) (i : Nat) : Nat :=
  1 + ((flds.take i).map DField.len).sum

/-! ## Equivalence of the two translations -/

theorem decodeOne_eq (f : DField) (raw : List Nat) :
    CreateSimplifiedTaGeojson.decodeOne f raw = GenerateCompleteTaData.decodeOne f raw := rfl

theorem decodeFields_eq (fs : List DField) (record : List Nat) (offset : Nat) (acc : RecordMap) :
    CreateSimplifiedTaGeojson.decodeFields fs record offset acc =
      GenerateCompleteTaData.decodeFields fs record offset acc := by
  induction fs generalizing offset acc with
  | nil => rfl
  | cons f fs ih =>
    simp only [CreateSimplifiedTaGeojson.decodeFields, GenerateCompleteTaData.decodeFields,
      decodeOne_eq, ih]

theorem readFields_eq (file : List Nat) (headerLen pos fuel : Nat) :
    CreateSimplifiedTaGeojson.readFields file headerLen pos fuel =
      GenerateCompleteTaData.readFields file headerLen pos fuel := by
  induction fuel generalizing pos with
  | zero => rfl
  | succ fuel ih =>
    simp only [CreateSimplifiedTaGeojson.readFields, GenerateCompleteTaData.readFields, ih]

theorem readRecords_eq (file : List Nat) (flds : List DField) (recordLen pos n : Nat) :
    CreateSimplifiedTaGeojson.readRecords file flds recordLen pos n =
      GenerateCompleteTaData.readRecords file flds recordLen pos n := by
  induction n generalizing pos with
  | zero => rfl
  | succ n ih =>
    simp only [CreateSimplifiedTaGeojson.readRecords, GenerateCompleteTaData.readRecords,
      ih, decodeFields_eq]

/-- C6. The two DBF reader implementations
(`read_dbf` in `create_simplified_ta_geojson.py` and `read_dbf` in
`generate_complete_ta_data.py`) are equivalent: on every byte source they
return equal record sequences, and they fail with the same error on the
same inputs (the `Except` result captures both outcomes). -/
theorem C6_read_dbf_implementations_equal (file : List Nat) :
    CreateSimplifiedTaGeojson.read_dbf file = GenerateCompleteTaData.read_dbf file := by
  simp only [CreateSimplifiedTaGeojson.read_dbf, GenerateCompleteTaData.read_dbf,
    readFields_eq, readRecords_eq]

/-! ## Parsing a synthetic buffer -/

theorem mem_of_mem_stripEnds {p : α → Bool} {l : List α} {x : α} (h : x ∈ stripEnds p l) : x ∈ l := by
  unfold stripEnds at h
  simp only [List.mem_reverse] at h
  have h1 := List.dropWhile_sublist (l := (List.dropWhile p l).reverse) (p := p)
  have h2 := h1.mem h
  simp only [List.mem_reverse] at h2
  exact (List.dropWhile_sublist (l := l) (p := p)).mem h2

theorem stripEnds_append_replicate {p : α → Bool} {a : α} (hp : p a = true) (xs : List α) (k : Nat) :
    stripEnds p (xs ++ List.replicate k a) = stripEnds p xs := by
  unfold stripEnds
  rw [List.dropWhile_append]
  by_cases h : (List.dropWhile p xs).isEmpty
  · simp only [h, if_true]
    rw [List.dropWhile_replicate]
    simp [hp, List.isEmpty_iff.mp h]
  · rw [if_neg h, List.reverse_append, List.reverse_replicate, List.dropWhile_append,
      List.dropWhile_replicate]
    simp [hp]

theorem utf8Aux_ascii (bs : List Nat) (h : ∀ b ∈ bs, b < 128) :
    utf8Aux true none bs = some (bs.map Char.ofNat) := by
  induction bs with
  | nil => rfl
  | cons b rest ih =>
    have hb : b < 128 := h b (by simp)
    simp only [utf8Aux, utf8Start, if_pos hb]
    rw [ih (fun x hx => h x (by simp [hx]))]
    rfl

theorem descBytes_length {f : FSpec} (h : f.name.length ≤ 11) : (descBytes f).length = 32 := by
  simp [descBytes]; omega

theorem descBytes_take11 {f : FSpec} (h : f.name.length ≤ 11) :
    (descBytes f).take 11 = f.name ++ List.replicate (11 - f.name.length) 0 := by
  apply List.take_left'
  simp; omega

theorem descBytes_get11 {f : FSpec} (h : f.name.length ≤ 11) :
    (descBytes f)[11]? = some f.type := by
  unfold descBytes
  rw [List.getElem?_append_right (by simp; omega)]
  have : 11 - (f.name ++ List.replicate (11 - f.name.length) 0).length = 0 := by simp; omega
  rw [this]
  rfl

theorem descBytes_get16 {f : FSpec} (h : f.name.length ≤ 11) :
    (descBytes f)[16]? = some f.len := by
  unfold descBytes
  rw [List.getElem?_append_right (by simp; omega)]
  have : 16 - (f.name ++ List.replicate (11 - f.name.length) 0).length = 5 := by simp; omega
  rw [this]
  rfl

theorem descBytes_head {f : FSpec} (hwf : FSpecWF f) :
    (descBytes f)[0]? ≠ some 13 := by
  obtain ⟨h11, hascii, hhead, -, -⟩ := hwf
  unfold descBytes
  cases hn : f.name with
  | nil => simp [hn]
  | cons a rest =>
    have ha : a < 128 := hascii a (by simp [hn])
    have : a ≠ 13 := by rw [hn] at hhead; simp at hhead; omega
    simp [hn, this]

theorem readFields_spec (file : List Nat) (fs : List FSpec) (headerLen : Nat) (pos fuel : Nat)
    (tail : List Nat)
    (hwf : ∀ f ∈ fs, FSpecWF f)
    (hlen : headerLen = pos + 32 * fs.length + 1)
    (hfuel : headerLen ≤ pos + fuel + 1)
    (hcontent : file.drop pos = (fs.map descBytes).flatten ++ 13 :: tail) :
    CreateSimplifiedTaGeojson.readFields file headerLen pos fuel = .ok (fs.map toDField) := by
  induction fs generalizing pos fuel tail with
  | nil =>
    cases fuel with
    | zero => rfl
    | succ fl =>
      simp only [CreateSimplifiedTaGeojson.readFields]
      rw [if_neg (by simp at hlen; omega)]
      rfl
  | cons f fsr ih =>
    have hwff : FSpecWF f := hwf f (by simp)
    obtain ⟨hn11, hascii, hhead, htype, hlenb⟩ := hwff
    cases fuel with
    | zero => exfalso; simp [List.length_cons] at hlen; omega
    | succ fl =>
      simp only [CreateSimplifiedTaGeojson.readFields]
      rw [if_pos (by simp [List.length_cons] at hlen; omega)]
      have hdesc32 : (descBytes f).length = 32 := descBytes_length hn11
      have hread : pyRead file pos 32 = descBytes f := by
        unfold pyRead
        rw [hcontent]
        have hflat : ((f :: fsr).map descBytes).flatten =
            descBytes f ++ (fsr.map descBytes).flatten := by simp
        rw [hflat, List.append_assoc]
        exact List.take_left' hdesc32
      rw [hread]
      obtain ⟨b, bs, hbs⟩ : ∃ b bs, descBytes f = b :: bs := by
        cases hd : descBytes f with
        | nil => rw [hd] at hdesc32; simp at hdesc32
        | cons x xs => exact ⟨x, xs, rfl⟩
      rw [hbs]
      dsimp only
      have hb13 : ¬(b = 13) := by
        have := descBytes_head ⟨hn11, hascii, hhead, htype, hlenb⟩
        rw [hbs] at this
        simp at this
        omega
      rw [if_neg hb13]
      have htake : (b :: bs).take 11 = f.name ++ List.replicate (11 - f.name.length) 0 := by
        rw [← hbs]; exact descBytes_take11 hn11
      rw [htake, stripEnds_append_replicate (by rfl)]
      have hdecode : utf8DecodeStrict (stripEnds (· == 0) f.name) =
          some ((stripEnds (· == 0) f.name).map Char.ofNat) := by
        unfold utf8DecodeStrict
        exact utf8Aux_ascii _ (fun x hx => hascii x (mem_of_mem_stripEnds hx))
      rw [hdecode]
      have h11 : (b :: bs)[11]? = some f.type := by rw [← hbs]; exact descBytes_get11 hn11
      have h16 : (b :: bs)[16]? = some f.len := by rw [← hbs]; exact descBytes_get16 hn11
      rw [h11, h16]
      have hlen32 : (b :: bs).length = 32 := by rw [← hbs]; exact hdesc32
      rw [hlen32]
      have hcontent' : file.drop (pos + 32) = (fsr.map descBytes).flatten ++ 13 :: tail := by
        have : file.drop (pos + 32) = (file.drop pos).drop 32 := by
          rw [List.drop_drop]
        rw [this, hcontent]
        have hflat : ((f :: fsr).map descBytes).flatten =
            descBytes f ++ (fsr.map descBytes).flatten := by simp
        rw [hflat, List.append_assoc]
        exact List.drop_left' hdesc32
      have hlen' : headerLen = (pos + 32) + 32 * fsr.length + 1 := by
        simp only [List.length_cons] at hlen; omega
      have hfuel' : headerLen ≤ (pos + 32) + fl + 1 := by omega
      rw [ih (pos + 32) fl tail (fun g hg => hwf g (List.mem_cons_of_mem f hg)) hlen' hfuel'
        hcontent']
      simp [toDField]

theorem readRecords_spec (file : List Nat) (flds : List DField) (recordLen : Nat)
    (recs : List (Nat × List Nat)) (pos : Nat) (tail : List Nat)
    (hlen : ∀ r ∈ recs, r.2.length + 1 = recordLen)
    (hcontent : file.drop pos = (recs.map recBytes).flatten ++ tail) :
    CreateSimplifiedTaGeojson.readRecords file flds recordLen pos recs.length =
      .ok ((recs.filter (fun r => decide (r.1 ≠ 42))).map
        (fun r => CreateSimplifiedTaGeojson.decodeFields flds (r.1 :: r.2) 1 [])) := by
  induction recs generalizing pos tail with
  | nil => rfl
  | cons r rest ih =>
    have hr : r.2.length + 1 = recordLen := hlen r (by simp)
    simp only [List.length_cons, CreateSimplifiedTaGeojson.readRecords]
    have hread : pyRead file pos recordLen = r.1 :: r.2 := by
      unfold pyRead
      rw [hcontent]
      have hflat : ((r :: rest).map recBytes).flatten =
          (r.1 :: r.2) ++ (rest.map recBytes).flatten := by simp [recBytes]
      rw [hflat, List.append_assoc]
      exact List.take_left' (by simp; omega)
    rw [hread]
    dsimp only
    rw [hr]
    have hcontent' : file.drop (pos + recordLen) = (rest.map recBytes).flatten ++ tail := by
      have : file.drop (pos + recordLen) = (file.drop pos).drop recordLen := by
        rw [List.drop_drop]
      rw [this, hcontent]
      have hflat : ((r :: rest).map recBytes).flatten =
          (r.1 :: r.2) ++ (rest.map recBytes).flatten := by simp [recBytes]
      rw [hflat, List.append_assoc]
      exact List.drop_left' (by simp; omega)
    rw [ih (pos + recordLen) tail (fun g hg => hlen g (List.mem_cons_of_mem r hg)) hcontent']
    by_cases h42 : r.1 = 42
    · rw [if_pos h42, List.filter_cons, if_neg (by simp [h42])]
    · rw [if_neg h42, List.filter_cons, if_pos (by simp [h42])]
      simp

theorem le4_unpack {n : Nat} (h : n < 4294967296) : unpackU32 (le4 n) = .ok n := by
  simp only [unpackU32, le4]
  congr 1
  omega

theorem le2_unpack {n : Nat} (h : n < 65536) : unpackU16 (le2 n) = .ok n := by
  simp only [unpackU16, le2]
  congr 1
  omega

theorem flatten_desc_length {fs : List FSpec} (hwf : ∀ f ∈ fs, FSpecWF f) :
    ((fs.map descBytes).flatten).length = 32 * fs.length := by
  induction fs with
  | nil => rfl
  | cons f rest ih =>
    have h32 : (descBytes f).length = 32 := descBytes_length (hwf f (by simp)).1
    simp only [List.map_cons, List.flatten_cons, List.length_append, h32,
      ih (fun g hg => hwf g (List.mem_cons_of_mem f hg)), List.length_cons]
    ring

theorem read_dbf_mkDbf (pre reserved : List Nat) (fs : List FSpec)
    (recs : List (Nat × List Nat)) (tail : List Nat)
    (hpre : pre.length = 4) (hres : reserved.length = 20)
    (hwf : TableWF fs recs) :
    CreateSimplifiedTaGeojson.read_dbf (mkDbf pre reserved fs recs tail) =
      .ok ((recs.filter (fun r => decide (r.1 ≠ 42))).map
        (fun r => CreateSimplifiedTaGeojson.decodeFields (fs.map toDField) (r.1 :: r.2) 1 [])) := by
  obtain ⟨hfwf, hH, hL, hR, hrec⟩ := hwf
  set P : List Nat :=
    pre ++ le4 recs.length ++ le2 (33 + 32 * fs.length) ++ le2 (1 + sumLens fs) ++ reserved with hP
  have hPlen : P.length = 32 := by simp [hP, le4, le2, hpre, hres]
  have hsplit : mkDbf pre reserved fs recs tail =
      P ++ ((fs.map descBytes).flatten ++ 13 :: ((recs.map recBytes).flatten ++ tail)) := by
    simp [mkDbf, hP, List.append_assoc]
  have hheader : pyRead (mkDbf pre reserved fs recs tail) 0 32 = P := by
    rw [hsplit]
    unfold pyRead
    rw [List.drop_zero]
    exact List.take_left' hPlen
  unfold CreateSimplifiedTaGeojson.read_dbf
  rw [hheader]
  dsimp only
  have hslice4 : (P.drop 4).take 4 = le4 recs.length := by
    rw [hP]
    rw [show pre ++ le4 recs.length ++ le2 (33 + 32 * fs.length) ++ le2 (1 + sumLens fs) ++ reserved
        = pre ++ (le4 recs.length ++ (le2 (33 + 32 * fs.length) ++ (le2 (1 + sumLens fs) ++ reserved)))
      by simp [List.append_assoc]]
    rw [List.drop_left' hpre]
    exact List.take_left' (by simp [le4])
  have hslice8 : (P.drop 8).take 2 = le2 (33 + 32 * fs.length) := by
    rw [hP]
    rw [show pre ++ le4 recs.length ++ le2 (33 + 32 * fs.length) ++ le2 (1 + sumLens fs) ++ reserved
        = (pre ++ le4 recs.length) ++ (le2 (33 + 32 * fs.length) ++ (le2 (1 + sumLens fs) ++ reserved))
      by simp [List.append_assoc]]
    rw [List.drop_left' (by simp [le4, hpre])]
    exact List.take_left' (by simp [le2])
  have hslice10 : (P.drop 10).take 2 = le2 (1 + sumLens fs) := by
    rw [hP]
    rw [show pre ++ le4 recs.length ++ le2 (33 + 32 * fs.length) ++ le2 (1 + sumLens fs) ++ reserved
        = (pre ++ le4 recs.length ++ le2 (33 + 32 * fs.length)) ++ (le2 (1 + sumLens fs) ++ reserved)
      by simp [List.append_assoc]]
    rw [List.drop_left' (by simp [le4, le2, hpre])]
    exact List.take_left' (by simp [le2])
  rw [hslice4, le4_unpack hR, hslice8, le2_unpack hH, hslice10, le2_unpack hL]
  dsimp only
  have hfields : CreateSimplifiedTaGeojson.readFields (mkDbf pre reserved fs recs tail)
      (33 + 32 * fs.length) 32 (33 + 32 * fs.length) = .ok (fs.map toDField) := by
    apply readFields_spec _ _ _ _ _ ((recs.map recBytes).flatten ++ tail) hfwf (by omega) (by omega)
    rw [hsplit]
    exact List.drop_left' hPlen
  rw [hfields]
  have hrecpos : (mkDbf pre reserved fs recs tail).drop (33 + 32 * fs.length) =
      (recs.map recBytes).flatten ++ tail := by
    have hsplit2 : mkDbf pre reserved fs recs tail =
        (P ++ (fs.map descBytes).flatten ++ [13]) ++ ((recs.map recBytes).flatten ++ tail) := by
      rw [hsplit]; simp
    rw [hsplit2]
    apply List.drop_left'
    simp [hPlen, flatten_desc_length hfwf]
    ring
  have := readRecords_spec (mkDbf pre reserved fs recs tail) (fs.map toDField)
    (1 + sumLens fs) recs (33 + 32 * fs.length) tail
    (fun r hr => by have := (hrec r hr).2.1; omega) hrecpos
  exact this

theorem dictLookup_insert_self (m : RecordMap) (k : String) (v : Value) :
    dictLookup (dictInsert m k v) k = some v := by
  induction m with
  | nil => simp [dictInsert, dictLookup]
  | cons p rest ih =>
    by_cases h : p.1 = k
    · simp [dictInsert, h, dictLookup]
    · simp [dictInsert, h, dictLookup, ih]

theorem dictLookup_insert_ne (m : RecordMap) {k k' : String} (v : Value) (h : k' ≠ k) :
    dictLookup (dictInsert m k v) k' = dictLookup m k' := by
  have hne : ¬(k = k') := fun hh => h hh.symm
  induction m with
  | nil => simp only [dictInsert, dictLookup, if_neg hne]
  | cons p rest ih =>
    by_cases hp : p.1 = k
    · simp only [dictInsert, if_pos hp, dictLookup]
      rw [if_neg hne, if_neg (fun hh => hne (hp.symm.trans hh))]
    · simp only [dictInsert, if_neg hp, dictLookup, ih]

theorem decodeFields_frame (fs : List DField) (record : List Nat) (off : Nat) (acc : RecordMap)
    {key : String} (h : key ∉ fs.map DField.name) :
    dictLookup (CreateSimplifiedTaGeojson.decodeFields fs record off acc) key =
      dictLookup acc key := by
  induction fs generalizing off acc with
  | nil => rfl
  | cons f rest ih =>
    simp only [List.map_cons, List.mem_cons, not_or] at h
    simp only [CreateSimplifiedTaGeojson.decodeFields]
    rw [ih _ _ h.2]
    cases CreateSimplifiedTaGeojson.decodeOne f ((record.drop off).take f.len) with
    | none => rfl
    | some v => exact dictLookup_insert_ne acc v h.1

theorem decodeFields_get (fs : List DField) (record : List Nat) (off : Nat) (acc : RecordMap)
    (i : Nat) (hi : i < fs.length)
    (hnd : (fs.map DField.name).Nodup)
    (hacc : dictLookup acc (fs.get ⟨i, hi⟩).name = none) :
    dictLookup (CreateSimplifiedTaGeojson.decodeFields fs record off acc) (fs.get ⟨i, hi⟩).name =
      CreateSimplifiedTaGeojson.decodeOne (fs.get ⟨i, hi⟩)
        ((record.drop (off + ((fs.take i).map DField.len).sum)).take (fs.get ⟨i, hi⟩).len) := by
  induction fs generalizing off acc i with
  | nil => exact absurd hi (by simp)
  | cons f rest ih =>
    simp only [List.map_cons, List.nodup_cons] at hnd
    cases i with
    | zero =>
      simp only [List.get, List.take, List.map, List.sum_nil, Nat.add_zero] at hacc ⊢
      simp only [CreateSimplifiedTaGeojson.decodeFields]
      cases hdec : CreateSimplifiedTaGeojson.decodeOne f ((record.drop off).take f.len) with
      | none =>
        dsimp only
        rw [decodeFields_frame _ _ _ _ hnd.1, hacc]
      | some v =>
        dsimp only
        rw [decodeFields_frame _ _ _ _ hnd.1]
        exact dictLookup_insert_self acc f.name v
    | succ j =>
      have hj : j < rest.length := by
        simp only [List.length_cons] at hi
        omega
      have hget : (f :: rest).get ⟨j + 1, hi⟩ = rest.get ⟨j, hj⟩ := rfl
      rw [hget] at hacc ⊢
      simp only [List.take, List.map_cons, List.sum_cons]
      rw [← Nat.add_assoc]
      simp only [CreateSimplifiedTaGeojson.decodeFields]
      have hne : (rest.get ⟨j, hj⟩).name ≠ f.name := by
        intro hcontra
        exact hnd.1 (hcontra ▸ List.mem_map_of_mem DField.name (rest.get_mem _ _))
      cases hdec : CreateSimplifiedTaGeojson.decodeOne f ((record.drop off).take f.len) with
      | none =>
        dsimp only
        rw [ih (off + f.len) acc j hj hnd.2 hacc]
      | some v =>
        dsimp only
        rw [ih (off + f.len) (dictInsert acc f.name v) j hj hnd.2 (by rw [dictLookup_insert_ne acc v hne]; exact hacc)]

/-- C1. For every well-formed synthetic DBF buffer, `read_dbf` returns
`.ok` of exactly the records not marked deleted (first byte `0x2A` = 42),
in on-disk order, and the length of the output equals the number of
non-deleted records. -/
theorem C1_live_records_in_file_order
    (pre reserved : List Nat) (fs : List FSpec) (recs : List (Nat × List Nat)) (tail : List Nat)
    (hpre : pre.length = 4) (hres : reserved.length = 20) (hwf : TableWF fs recs) :
    CreateSimplifiedTaGeojson.read_dbf (mkDbf pre reserved fs recs tail) =
      .ok ((recs.filter (fun r => decide (r.1 ≠ 42))).map
        (fun r => CreateSimplifiedTaGeojson.decodeFields (fs.map toDField) (r.1 :: r.2) 1 [])) ∧
    ∀ out, CreateSimplifiedTaGeojson.read_dbf (mkDbf pre reserved fs recs tail) = .ok out →
      out.length = (recs.filter (fun r => decide (r.1 ≠ 42))).length := by
  have h := read_dbf_mkDbf pre reserved fs recs tail hpre hres hwf
  refine ⟨h, fun out hout => ?_⟩
  rw [h] at hout
  cases hout
  exact List.length_map _ _

theorem C1_live_records_in_file_order_witness :
    TableWF [⟨[88], 78, 3⟩] [(32, [49,50,51]), (42, [52,53,54]), (32, [55,56,57])] ∧
    CreateSimplifiedTaGeojson.read_dbf
        (mkDbf [3,0,0,0] (List.replicate 20 0) [⟨[88], 78, 3⟩]
          [(32, [49,50,51]), (42, [52,53,54]), (32, [55,56,57])] []) =
      .ok (([(32, [49,50,51]), (42, [52,53,54]), (32, [55,56,57])].filter
            (fun r => decide (r.1 ≠ 42))).map
        (fun r => CreateSimplifiedTaGeojson.decodeFields ([⟨[88], 78, 3⟩].map toDField)
          (r.1 :: r.2) 1 [])) :=
  ⟨by simp only [TableWF, FSpecWF]; decide,
   (C1_live_records_in_file_order [3,0,0,0] (List.replicate 20 0) _ _ [] rfl (by decide)
     (by simp only [TableWF, FSpecWF]; decide)).1⟩

/-- C4. A record whose first byte is `0x2A` (42) never appears in
the output of `read_dbf` (for every well-formed synthetic buffer, the output is
exactly the decoding of the records whose flag byte differs from `0x2A`);
in particular the 1-field ("NAME", Character, length 10) table with live
record "ABCDEFGHIJ" and deleted record "ZZZZZZZZZZ" yields exactly
`[{"NAME": "ABCDEFGHIJ"}]`. -/
theorem C4_deleted_records_excluded :
    (∀ (pre reserved : List Nat) (fs : List FSpec) (recs : List (Nat × List Nat))
        (tail : List Nat), pre.length = 4 → reserved.length = 20 → TableWF fs recs →
      CreateSimplifiedTaGeojson.read_dbf (mkDbf pre reserved fs recs tail) =
        .ok ((recs.filter (fun r => decide (r.1 ≠ 42))).map
          (fun r => CreateSimplifiedTaGeojson.decodeFields (fs.map toDField) (r.1 :: r.2) 1 []))) ∧
    CreateSimplifiedTaGeojson.read_dbf
        (mkDbf [3,0,0,0] (List.replicate 20 0) [⟨[78,65,77,69], 67, 10⟩]
          [(32, [65,66,67,68,69,70,71,72,73,74]), (42, [90,90,90,90,90,90,90,90,90,90])] []) =
      .ok [[("NAME", Value.str "ABCDEFGHIJ")]] :=
  ⟨fun pre reserved fs recs tail hpre hres hwf =>
    read_dbf_mkDbf pre reserved fs recs tail hpre hres hwf,
   by rfl⟩

theorem C4_deleted_records_excluded_witness :
    TableWF [⟨[78,65,77,69], 67, 10⟩]
        [(32, [65,66,67,68,69,70,71,72,73,74]), (42, [90,90,90,90,90,90,90,90,90,90])] ∧
    CreateSimplifiedTaGeojson.read_dbf
        (mkDbf [3,0,0,0] (List.replicate 20 0) [⟨[78,65,77,69], 67, 10⟩]
          [(32, [65,66,67,68,69,70,71,72,73,74]), (42, [90,90,90,90,90,90,90,90,90,90])] []) =
      .ok (([(32, [65,66,67,68,69,70,71,72,73,74]),
             (42, [90,90,90,90,90,90,90,90,90,90])].filter (fun r => decide (r.1 ≠ 42))).map
        (fun r => CreateSimplifiedTaGeojson.decodeFields ([⟨[78,65,77,69], 67, 10⟩].map toDField)
          (r.1 :: r.2) 1 [])) :=
  ⟨by simp only [TableWF, FSpecWF]; decide,
   C4_deleted_records_excluded.1 [3,0,0,0] (List.replicate 20 0) _ _ [] rfl (by decide)
     (by simp only [TableWF, FSpecWF]; decide)⟩

/-- C10. While decoding a record, the byte offset advances by each
field's declared length in declaration order regardless of its type code:
the value recorded for field `i` (if any) is computed from the slice of
the record starting at `fieldOffset`, i.e. at 1 plus the sum of the
declared lengths of fields `0..i-1`, and is `decodeOne` of that slice
(`none`, i.e. no entry, for an unrecognized type code — which therefore
still consumes its declared bytes and does not shift later fields). -/
theorem C10_offset_is_one_plus_sum_of_declared_lengths
    (flds : List DField) (record : List Nat) (i : Nat) (hi : i < flds.length)
    (hnd : (flds.map DField.name).Nodup) :
    dictLookup (CreateSimplifiedTaGeojson.decodeFields flds record 1 [])
        (flds.get ⟨i, hi⟩).name =
      CreateSimplifiedTaGeojson.decodeOne (flds.get ⟨i, hi⟩)
        ((record.drop (fieldOffset flds i)).take (flds.get ⟨i, hi⟩).len) := by
  unfold fieldOffset
  exact decodeFields_get flds record 1 [] i hi hnd rfl

theorem C10_offset_is_one_plus_sum_of_declared_lengths_witness :
    1 < ([⟨"A", 'D', 4⟩, ⟨"B", 'C', 3⟩] : List DField).length ∧
    dictLookup (CreateSimplifiedTaGeojson.decodeFields [⟨"A", 'D', 4⟩, ⟨"B", 'C', 3⟩]
        [32, 49,50,51,52, 88,89,90] 1 []) "B" =
      CreateSimplifiedTaGeojson.decodeOne (⟨"B", 'C', 3⟩ : DField)
        (([32, 49,50,51,52, 88,89,90].drop (fieldOffset [⟨"A", 'D', 4⟩, ⟨"B", 'C', 3⟩] 1)).take 3) :=
  ⟨by decide,
   C10_offset_is_one_plus_sum_of_declared_lengths [⟨"A", 'D', 4⟩, ⟨"B", 'C', 3⟩]
     [32, 49,50,51,52, 88,89,90] 1 (by decide) (by decide)⟩

/-- C8 counterexample. The claim says only *trailing* whitespace is
stripped from Character fields and "no other characters (in particular no
leading ones)" are removed.  On a live record whose NAME field holds
`"  AB      "` (two leading spaces), `read_dbf` returns `"AB"`: the
leading spaces are removed as well (the code strips the raw bytes on both
ends and strips the decoded string again). -/
theorem C8_counterexample :
    CreateSimplifiedTaGeojson.read_dbf
        (mkDbf [3,0,0,0] (List.replicate 20 0) [⟨[78,65,77,69], 67, 10⟩]
          [(32, [32,32,65,66,32,32,32,32,32,32])] []) =
      .ok [[("NAME", Value.str "AB")]] ∧
    Value.str "AB" ≠ Value.str "  AB" := by
  constructor
  · rfl
  · decide

/-- C8 amended. For every Character (type code C) field of a record, the
decoded value equals the field's stored bytes with whitespace stripped
from *both* ends, decoded best-effort as UTF-8, and stripped again as a
string (leading as well as trailing whitespace is removed). -/
theorem C8_amended_character_fields_stripped_both_ends
    (flds : List DField) (record : List Nat) (i : Nat) (hi : i < flds.length)
    (hnd : (flds.map DField.name).Nodup)
    (htype : (flds.get ⟨i, hi⟩).type = 'C') :
    dictLookup (CreateSimplifiedTaGeojson.decodeFields flds record 1 [])
        (flds.get ⟨i, hi⟩).name =
      some (.str (pyStrStrip (String.mk (utf8DecodeIgnore
        (pyBytesStrip ((record.drop (fieldOffset flds i)).take (flds.get ⟨i, hi⟩).len)))))) := by
  unfold fieldOffset
  rw [decodeFields_get flds record 1 [] i hi hnd rfl]
  unfold CreateSimplifiedTaGeojson.decodeOne
  rw [if_pos htype]

theorem C8_amended_character_fields_stripped_both_ends_witness :
    (([⟨"NAME", 'C', 10⟩] : List DField).get ⟨0, by decide⟩).type = 'C' ∧
    dictLookup (CreateSimplifiedTaGeojson.decodeFields [⟨"NAME", 'C', 10⟩]
        [32, 32,32,65,66,32,32,32,32,32,32] 1 []) "NAME" =
      some (.str (pyStrStrip (String.mk (utf8DecodeIgnore
        (pyBytesStrip (([32, 32,32,65,66,32,32,32,32,32,32].drop
          (fieldOffset [⟨"NAME", 'C', 10⟩] 0)).take 10)))))) :=
  ⟨by decide,
   C8_amended_character_fields_stripped_both_ends [⟨"NAME", 'C', 10⟩]
     [32, 32,32,65,66,32,32,32,32,32,32] 0 (by decide) (by decide) (by decide)⟩

/-- C5. For every Numeric (type code N) field of a record: the recorded
value is parsed from the stripped field bytes — as a float when they
contain a dot byte (46), as an integer otherwise; when the parse fails the
value defaults to `int 0` (no exception); and every field's value is a
function of that field's own byte slice only, so a failure in one field
alters no sibling field (and, by the per-record map structure of `read_dbf`,
no other record). -/
theorem C5_numeric_parse_and_default_zero
    (flds : List DField) (record : List Nat) (i : Nat) (hi : i < flds.length)
    (hnd : (flds.map DField.name).Nodup)
    (htype : (flds.get ⟨i, hi⟩).type = 'N') :
    (dictLookup (CreateSimplifiedTaGeojson.decodeFields flds record 1 [])
        (flds.get ⟨i, hi⟩).name =
      some (if (pyBytesStrip ((record.drop (fieldOffset flds i)).take
                  (flds.get ⟨i, hi⟩).len)).contains 46 then
              match pyParseFloat (pyBytesStrip ((record.drop (fieldOffset flds i)).take
                  (flds.get ⟨i, hi⟩).len)) with
              | some q => Value.float q
              | none => Value.int 0
            else
              match pyParseInt (pyBytesStrip ((record.drop (fieldOffset flds i)).take
                  (flds.get ⟨i, hi⟩).len)) with
              | some n => Value.int n
              | none => Value.int 0)) ∧
    ((pyBytesStrip ((record.drop (fieldOffset flds i)).take
        (flds.get ⟨i, hi⟩).len)).contains 46 = true →
      pyParseFloat (pyBytesStrip ((record.drop (fieldOffset flds i)).take
        (flds.get ⟨i, hi⟩).len)) = none →
      dictLookup (CreateSimplifiedTaGeojson.decodeFields flds record 1 [])
        (flds.get ⟨i, hi⟩).name = some (Value.int 0)) ∧
    ((pyBytesStrip ((record.drop (fieldOffset flds i)).take
        (flds.get ⟨i, hi⟩).len)).contains 46 = false →
      pyParseInt (pyBytesStrip ((record.drop (fieldOffset flds i)).take
        (flds.get ⟨i, hi⟩).len)) = none →
      dictLookup (CreateSimplifiedTaGeojson.decodeFields flds record 1 [])
        (flds.get ⟨i, hi⟩).name = some (Value.int 0)) ∧
    (∀ (record' : List Nat) (j : Nat) (hj : j < flds.length),
      (record'.drop (fieldOffset flds j)).take (flds.get ⟨j, hj⟩).len =
        (record.drop (fieldOffset flds j)).take (flds.get ⟨j, hj⟩).len →
      dictLookup (CreateSimplifiedTaGeojson.decodeFields flds record' 1 [])
          (flds.get ⟨j, hj⟩).name =
        dictLookup (CreateSimplifiedTaGeojson.decodeFields flds record 1 [])
          (flds.get ⟨j, hj⟩).name) := by
  have hne : ¬((flds.get ⟨i, hi⟩).type = 'C') := by rw [htype]; decide
  refine ⟨?_, ?_, ?_, ?_⟩
  · unfold fieldOffset
    rw [decodeFields_get flds record 1 [] i hi hnd rfl]
    unfold CreateSimplifiedTaGeojson.decodeOne
    rw [if_neg hne, if_pos htype]
  · intro hdot hfail
    unfold fieldOffset at hdot hfail
    rw [decodeFields_get flds record 1 [] i hi hnd rfl]
    unfold CreateSimplifiedTaGeojson.decodeOne
    rw [if_neg hne, if_pos htype]
    rw [if_pos hdot, hfail]
  · intro hdot hfail
    unfold fieldOffset at hdot hfail
    rw [decodeFields_get flds record 1 [] i hi hnd rfl]
    unfold CreateSimplifiedTaGeojson.decodeOne
    rw [if_neg hne, if_pos htype]
    rw [if_neg (by rw [hdot]; decide), hfail]
  · intro record' j hj hslice
    unfold fieldOffset at hslice
    rw [decodeFields_get flds record' 1 [] j hj hnd rfl,
      decodeFields_get flds record 1 [] j hj hnd rfl, hslice]

theorem C5_numeric_parse_and_default_zero_witness :
    (([⟨"A", 'N', 4⟩, ⟨"B", 'N', 4⟩] : List DField).get ⟨0, by decide⟩).type = 'N' ∧
    dictLookup (CreateSimplifiedTaGeojson.decodeFields [⟨"A", 'N', 4⟩, ⟨"B", 'N', 4⟩]
        [32, 120,46,120,32, 32,32,52,50] 1 []) "A" = some (Value.int 0) ∧
    dictLookup (CreateSimplifiedTaGeojson.decodeFields [⟨"A", 'N', 4⟩, ⟨"B", 'N', 4⟩]
        [32, 120,46,120,32, 32,32,52,50] 1 []) "B" = some (Value.int 42) := by
  refine ⟨by decide, ?_, by decide⟩
  exact (C5_numeric_parse_and_default_zero [⟨"A", 'N', 4⟩, ⟨"B", 'N', 4⟩]
    [32, 120,46,120,32, 32,32,52,50] 0 (by decide) (by decide) (by decide)).2.1
    (by decide) (by decide)

/-- C3 counterexample. The claim says a field with an unrecognized
type code yields a record mapping that field's name to the bytes decoded
as a best-effort string.  On a 1-field table whose field "X" has type code
D (68) and a live record with bytes "12345", `read_dbf` does not raise
but returns the *empty* mapping: the field's name is not mapped at all. -/
theorem C3_counterexample :
    CreateSimplifiedTaGeojson.read_dbf
        (mkDbf [3,0,0,0] (List.replicate 20 0) [⟨[88], 68, 5⟩] [(32, [49,50,51,52,53])] []) =
      .ok [[]] ∧
    dictLookup [] "X" = none := by
  constructor
  · rfl
  · rfl

/-- C3 amended. For a well-formed table containing a field whose type
code is neither C nor N, `read_dbf` does not raise (it returns
`.ok`), but the produced records do *not* map that field's name to
anything: the field is omitted from the mapping entirely (its declared
length is still consumed, per C10). -/
theorem C3_amended_unrecognized_type_field_omitted
    (pre reserved : List Nat) (fs : List FSpec) (recs : List (Nat × List Nat)) (tail : List Nat)
    (hpre : pre.length = 4) (hres : reserved.length = 20) (hwf : TableWF fs recs)
    (i : Nat) (hi : i < fs.length)
    (hnd : ((fs.map toDField).map DField.name).Nodup)
    (hC : Char.ofNat (fs.get ⟨i, hi⟩).type ≠ 'C')
    (hN : Char.ofNat (fs.get ⟨i, hi⟩).type ≠ 'N') :
    ∃ out, CreateSimplifiedTaGeojson.read_dbf (mkDbf pre reserved fs recs tail) = .ok out ∧
      ∀ m ∈ out, dictLookup m (toDField (fs.get ⟨i, hi⟩)).name = none := by
  refine ⟨_, read_dbf_mkDbf pre reserved fs recs tail hpre hres hwf, ?_⟩
  intro m hm
  obtain ⟨r, hr, rfl⟩ := List.mem_map.mp hm
  have hi' : i < (fs.map toDField).length := by simpa using hi
  have hget : (fs.map toDField).get ⟨i, hi'⟩ = toDField (fs.get ⟨i, hi⟩) := by
    simp [List.get_eq_getElem]
  rw [← hget]
  rw [decodeFields_get (fs.map toDField) (r.1 :: r.2) 1 [] i hi' hnd rfl]
  unfold CreateSimplifiedTaGeojson.decodeOne
  rw [hget]
  dsimp only [toDField]
  rw [if_neg hC, if_neg hN]

theorem C3_amended_unrecognized_type_field_omitted_witness :
    Char.ofNat (([⟨[88], 68, 5⟩] : List FSpec).get ⟨0, by decide⟩).type ≠ 'C' ∧
    (∃ out, CreateSimplifiedTaGeojson.read_dbf
        (mkDbf [3,0,0,0] (List.replicate 20 0) [⟨[88], 68, 5⟩] [(32, [49,50,51,52,53])] []) =
          .ok out ∧
      ∀ m ∈ out, dictLookup m (toDField (([⟨[88], 68, 5⟩] : List FSpec).get ⟨0, by decide⟩)).name
        = none) :=
  ⟨by decide,
   C3_amended_unrecognized_type_field_omitted [3,0,0,0] (List.replicate 20 0)
     [⟨[88], 68, 5⟩] [(32, [49,50,51,52,53])] [] rfl (by decide)
     (by simp only [TableWF, FSpecWF]; decide) 0 (by decide) (by decide) (by decide) (by decide)⟩

theorem readRecords_truncated (file : List Nat) (flds : List DField) (recordLen : Nat) :
    ∀ (n pos : Nat), 1 ≤ n → file.length ≤ pos + (n - 1) * recordLen →
    CreateSimplifiedTaGeojson.readRecords file flds recordLen pos n = .error .indexError := by
  intro n
  induction n with
  | zero => intro pos h1 _; omega
  | succ m ih =>
    intro pos _ htrunc
    simp only [CreateSimplifiedTaGeojson.readRecords]
    cases hrec : pyRead file pos recordLen with
    | nil => rfl
    | cons b bs =>
      have hpos : pos < file.length := by
        by_contra hge
        have : file.drop pos = [] := List.drop_eq_nil_of_le (by omega)
        simp [pyRead, this] at hrec
      have hlenrec : (b :: bs).length = min recordLen (file.length - pos) := by
        rw [← hrec]
        simp [pyRead, List.length_take]
      have hm1 : m - 1 ≤ m := Nat.sub_le m 1
      simp only [Nat.add_sub_cancel] at htrunc
      have hm : 1 ≤ m := by
        by_contra hm0
        have : m = 0 := by omega
        subst this
        simp at htrunc
        omega
      obtain ⟨k, rfl⟩ : ∃ k, m = k + 1 := ⟨m - 1, by omega⟩
      have hmul : (k + 1) * recordLen = k * recordLen + recordLen := by ring
      rw [hmul] at htrunc
      have htrunc' : file.length ≤ (pos + (b :: bs).length) + (k + 1 - 1) * recordLen := by
        simp only [Nat.add_sub_cancel]
        omega
      dsimp only
      by_cases h42 : b = 42
      · rw [if_pos h42]
        exact ih (pos + (b :: bs).length) hm htrunc'
      · rw [if_neg h42, ih (pos + (b :: bs).length) hm htrunc']

/-- C2 counterexample. A buffer whose header declares one record of
5 bytes but whose record block is cut to 2 bytes (declared block end
`65 + 5 = 70` past the 67-byte file): the record read returns only
2 bytes — the read request cannot be satisfied — yet `read_dbf` does not
fail; it silently decodes the truncated record and returns normally. -/
theorem C2_counterexample :
    65 + 1 * 5 >
      ((mkDbf [3,0,0,0] (List.replicate 20 0) [⟨[65], 67, 4⟩]
        [(32, [65,66,67,68])] []).take 67).length ∧
    (pyRead ((mkDbf [3,0,0,0] (List.replicate 20 0) [⟨[65], 67, 4⟩]
        [(32, [65,66,67,68])] []).take 67) 65 5).length < 5 ∧
    CreateSimplifiedTaGeojson.read_dbf
        ((mkDbf [3,0,0,0] (List.replicate 20 0) [⟨[65], 67, 4⟩]
          [(32, [65,66,67,68])] []).take 67) =
      .ok [[("A", Value.str "A")]] :=
  ⟨by decide, by decide, by rfl⟩

/-- C2 amended. If the declared record block extends so far past the
physical end of the file that at least one declared record starts at or
beyond it (`file.length ≤ header_len + (num_records - 1) · record_len`
with `num_records ≥ 1`), `read_dbf` raises an `IndexError` (the code's
stand-in for `TruncatedFile`).  When only the final record is cut short
mid-record, however, `read_dbf` silently returns a full-length sequence
(see the counterexample). -/
theorem C2_amended_whole_missing_record_raises
    (file : List Nat) (numRecords headerLen recordLen : Nat) (flds : List DField)
    (h4 : unpackU32 (((pyRead file 0 32).drop 4).take 4) = .ok numRecords)
    (h8 : unpackU16 (((pyRead file 0 32).drop 8).take 2) = .ok headerLen)
    (h10 : unpackU16 (((pyRead file 0 32).drop 10).take 2) = .ok recordLen)
    (hf : CreateSimplifiedTaGeojson.readFields file headerLen 32 headerLen = .ok flds)
    (hn : 1 ≤ numRecords)
    (htrunc : file.length ≤ headerLen + (numRecords - 1) * recordLen) :
    CreateSimplifiedTaGeojson.read_dbf file = .error .indexError := by
  unfold CreateSimplifiedTaGeojson.read_dbf
  dsimp only
  rw [h4]
  dsimp only
  rw [h8]
  dsimp only
  rw [h10]
  dsimp only
  rw [hf]
  dsimp only
  exact readRecords_truncated file flds recordLen numRecords headerLen hn htrunc

theorem C2_amended_whole_missing_record_raises_witness :
    (((mkDbf [3,0,0,0] (List.replicate 20 0) [⟨[65], 67, 4⟩]
        [(32, [65,66,67,68]), (32, [69,70,71,72])] []).take 70).length ≤ 65 + (2 - 1) * 5) ∧
    CreateSimplifiedTaGeojson.read_dbf
        ((mkDbf [3,0,0,0] (List.replicate 20 0) [⟨[65], 67, 4⟩]
          [(32, [65,66,67,68]), (32, [69,70,71,72])] []).take 70) =
      .error .indexError :=
  ⟨by decide,
   C2_amended_whole_missing_record_raises _ 2 65 5 [⟨"A", 'C', 4⟩]
     (by rfl) (by rfl) (by rfl) (by rfl) (by decide) (by decide)⟩

theorem unpackU32_short {bs : List Nat} (h : bs.length ≠ 4) :
    unpackU32 bs = .error .structError := by
  rcases bs with _ | ⟨a, _ | ⟨b, _ | ⟨c, _ | ⟨d, _ | ⟨e, rest⟩⟩⟩⟩⟩ <;>
    first
      | rfl
      | (exfalso; exact h rfl)

theorem unpackU16_short {bs : List Nat} (h : bs.length ≠ 2) :
    unpackU16 bs = .error .structError := by
  rcases bs with _ | ⟨a, _ | ⟨b, _ | ⟨c, rest⟩⟩⟩ <;>
    first
      | rfl
      | (exfalso; exact h rfl)

theorem unpackU32_error_eq {bs : List Nat} {e : PyErr} (h : unpackU32 bs = .error e) :
    e = .structError := by
  rcases bs with _ | ⟨a, _ | ⟨b, _ | ⟨c, _ | ⟨d, _ | ⟨x, rest⟩⟩⟩⟩⟩ <;>
    simp only [unpackU32] at h <;>
    first
      | exact (Except.error.inj h).symm
      | exact absurd h (by simp)

theorem unpackU16_error_eq {bs : List Nat} {e : PyErr} (h : unpackU16 bs = .error e) :
    e = .structError := by
  rcases bs with _ | ⟨a, _ | ⟨b, _ | ⟨c, rest⟩⟩⟩ <;>
    simp only [unpackU16] at h <;>
    first
      | exact (Except.error.inj h).symm
      | exact absurd h (by simp)

/-- C7 counterexample. The claim says every source with fewer than 32
bytes fails with a malformed-header condition and returns no record
sequence.  A 12-byte file whose record-count bytes decode to 0 parses its
header from the short buffer without error and returns the (empty) record
sequence `.ok []`. -/
theorem C7_counterexample :
    ([3,0,0,0, 0,0,0,0, 0,0, 0,0] : List Nat).length < 32 ∧
    CreateSimplifiedTaGeojson.read_dbf [3,0,0,0, 0,0,0,0, 0,0, 0,0] = .ok [] :=
  ⟨by decide, by rfl⟩

/-- C7 amended. `read_dbf` fails with `struct.error` (the malformed-
header condition) exactly when the file is too short for one of the three
header `struct.unpack` slices, i.e. when it has fewer than 12 bytes; a
source of 12 to 31 bytes parses the header from the short buffer and may
return a record sequence (see the counterexample). -/
theorem C7_amended_under_12_bytes_struct_error
    (file : List Nat) (h : file.length < 12) :
    CreateSimplifiedTaGeojson.read_dbf file = .error .structError := by
  unfold CreateSimplifiedTaGeojson.read_dbf
  dsimp only
  by_cases h8 : file.length < 8
  · rw [unpackU32_short (by simp [pyRead]; omega)]
  · cases h1 : unpackU32 (((pyRead file 0 32).drop 4).take 4) with
    | error e =>
      dsimp only
      rw [unpackU32_error_eq h1]
    | ok n =>
      dsimp only
      by_cases h10 : file.length < 10
      · rw [unpackU16_short (by simp [pyRead]; omega)]
      · cases h2 : unpackU16 (((pyRead file 0 32).drop 8).take 2) with
        | error e =>
          dsimp only
          rw [unpackU16_error_eq h2]
        | ok hl =>
          dsimp only
          rw [unpackU16_short (by simp [pyRead]; omega)]

theorem C7_amended_under_12_bytes_struct_error_witness :
    ([3,0,0,0, 0,0,0] : List Nat).length < 12 ∧
    CreateSimplifiedTaGeojson.read_dbf [3,0,0,0, 0,0,0] = .error .structError :=
  ⟨by decide, C7_amended_under_12_bytes_struct_error [3,0,0,0, 0,0,0] (by decide)⟩

/-- C9. `read_dbf` is a pure, deterministic transform.  The source
reads only the bytes of the named file (modelled as the argument) and
touches no process-wide or shared state, so the embedding is a function
of the byte source alone: byte-identical sources yield identical results,
and the only observable outcome is the returned value. -/
theorem C9_read_dbf_deterministic (b₁ b₂ : List Nat) (h : b₁ = b₂) :
    CreateSimplifiedTaGeojson.read_dbf b₁ = CreateSimplifiedTaGeojson.read_dbf b₂ :=
  congrArg CreateSimplifiedTaGeojson.read_dbf h

theorem C9_read_dbf_deterministic_witness :
    ([3,0,0,0, 0,0,0,0, 0,0, 0,0] : List Nat) = [3,0,0,0, 0,0,0,0, 0,0, 0,0] ∧
    CreateSimplifiedTaGeojson.read_dbf [3,0,0,0, 0,0,0,0, 0,0, 0,0] =
      CreateSimplifiedTaGeojson.read_dbf [3,0,0,0, 0,0,0,0, 0,0, 0,0] :=
  ⟨rfl, C9_read_dbf_deterministic [3,0,0,0, 0,0,0,0, 0,0, 0,0] [3,0,0,0, 0,0,0,0, 0,0, 0,0] rfl⟩
